import Mathlib

/-!
Verification of the encrypted storage engine and client blob operations of
the c2FmZQ repository: the advisory lock manager, the transactional object
store (kringle-server/secure/storage.go) and the client Sync/Free blob
operations. Go functions are embedded as pure Lean functions; the filesystem
(data files, lock files, backup records, blobs) is passed as explicit state;
the outcomes of the I/O a function performs (lock creation, saves, reads,
downloads, removals) are parameters of the embedding.
-/

namespace C2FmZQ

/-- Logical names under the storage root. The source uses strings ordered
lexicographically by sort.Strings; the model uses naturals, whose linear
order stands for the lexicographic order on names. -/
abbrev Name := Nat

/-- Errors of the secure storage layer (storage.go:20-27 and the error values
its operations produce). -/
inductive GoErr where
  /-- ErrRolledBack (storage.go:22). -/
  | errRolledBack
  /-- ErrAlreadyRolledBack (storage.go:24). -/
  | errAlreadyRolledBack
  /-- ErrAlreadyCommitted (storage.go:26). -/
  | errAlreadyCommitted
  /-- os.ErrNotExist, as returned by os.Open on a missing data file. -/
  | errNotExist
  /-- os.Remove failing on a lock file (Unlock, storage.go:79). -/
  | removeFailed (lockName : Name)
  /-- an I/O error from Lock's open/create (storage.go:41-49). -/
  | lockFailed (lockName : Name)
  /-- the aggregated SaveDataFile errors of a commit (storage.go:229). -/
  | saveDataFileFailed (names : List Name)
  /-- the aggregated ReadDataFile errors of OpenManyForUpdate (storage.go:182). -/
  | readDataFileFailed (names : List Name)
  /-- a createBackup failure (storage.go:207). -/
  | backupFailed
  /-- the client Sync error: the first download error wrapping the rest
  (part_000:55). -/
  | downloadFailed (files : List String)
  /-- os.Remove failing on a blob file (client Free, part_000:76). -/
  | blobRemoveFailed (path : String)
deriving DecidableEq, Repr

/-- Lock files currently present on disk, by the locked name. -/
abbrev LockSet := List Name

/-- sort.Strings (used by LockMany, storage.go:64): ascending lexicographic
sort of the names. -/
def sortNames (l : List Name) : List Name :=
  List.insertionSort (fun a b => a ≤ b) l

/-- Unlock (storage.go:77-83): os.Remove of the name's lock file; it fails
exactly when the lock file is absent. -/
def Unlock (held : LockSet) (fn : Name) : Except GoErr LockSet :=
  if fn ∈ held then .ok (held.erase fn) else .error (.removeFailed fn)

/-- Loop body of UnlockMany (storage.go:90-94): unlink each name's lock file
in sequence, stopping at the first failure. Returns the error (if any), the
lock files still present, and the sequence of names whose lock file the loop
attempted to unlink, in order. -/
def unlockManyLoop (held : LockSet) : List Name → Option GoErr × LockSet × List Name
  | [] => (none, held, [])
  | f :: fs =>
    match Unlock held f with
    | .error e => (some e, held, [f])
    | .ok h =>
      let r := unlockManyLoop h fs
      (r.1, r.2.1, f :: r.2.2)

/-- UnlockMany (storage.go:86-96). The source copies `filenames` into a local
`sorted` slice, then reverse-sorts the original `filenames` slice in place,
and iterates the (still unsorted) copy: the unlink sequence is the input
order, not the reverse-sorted order. -/
def UnlockMany (held : LockSet) (filenames : List Name) : Option GoErr × LockSet × List Name :=
  let sorted := filenames
  unlockManyLoop held sorted

/-- Unlock order the spec's words mandate for UnlockMany (spec 4.C: "unlock in
reverse lexicographic order"), stated for comparison with the source's order. -/
def specUnlockOrder (filenames : List Name) : List Name :=
  (sortNames filenames).reverse

/-- Lock (storage.go:34-55): create-exclusive open of the name's lock file.
Contention blocks in a retry loop and is not an error; `lockOk fn = false`
models the open failing with an I/O error instead. Success creates the lock
file. -/
def Lock (lockOk : Name → Bool) (held : LockSet) (fn : Name) : Except GoErr LockSet :=
  if lockOk fn then .ok (held ++ [fn]) else .error (.lockFailed fn)

/-- Result of LockMany: the returned error, the lock files present afterwards,
the names this call acquired (in acquisition order), and the names whose lock
file the failure path attempted to unlink (in order). -/
structure LockManyResult where
  err : Option GoErr
  held : LockSet
  acquired : List Name
  released : List Name
deriving DecidableEq, Repr

/-- Loop body of LockMany (storage.go:65-72): acquire each name of the sorted
list in turn, remembering the acquisitions in `locks`; on a failure, release
via UnlockMany(locks) and return the error. -/
def lockManyLoop (lockOk : Name → Bool) (held : LockSet) (locks : List Name) :
    List Name → LockManyResult
  | [] => ⟨none, held, locks, []⟩
  | f :: fs =>
    match Lock lockOk held f with
    | .error e =>
      let u := UnlockMany held locks
      ⟨some e, u.2.1, locks, u.2.2⟩
    | .ok h => lockManyLoop lockOk h (locks ++ [f]) fs

/-- LockMany (storage.go:61-74): sort a copy of the input and acquire the
locks in that order. -/
def LockMany (lockOk : Name → Bool) (held : LockSet) (filenames : List Name) : LockManyResult :=
  lockManyLoop lockOk held [] (sortNames filenames)

/-- Lock set reached by unlinking each of `names` in order when every unlink
succeeds; `none` when one fails. A helper to state which unlink sequences
reach a given point of UnlockMany's loop. -/
def runUnlocks (held : LockSet) : List Name → Option LockSet
  | [] => some held
  | f :: fs =>
    match Unlock held f with
    | .error _ => none
    | .ok h => runUnlocks h fs

/-- An on-disk data file. Modelled from the spec: the bodies of the envelope
codec's collaborators (the kringle-server/crypto wrapped-key primitives, gzip
and the JSON codec) are not under src/; spec 4.B fixes the envelope as the
wrapped per-object key followed by the authenticated encryption of the
compressed serialized object, which the model keeps as the pair of the key's
identity and the decoded object. -/
structure Envelope (α : Type) where
  key : Nat
  payload : α
deriving DecidableEq, Repr

/-- Data files on disk under the storage root: a finite map from names to
envelopes, kept as an association list. -/
abbrev Disk (α : Type) := List (Name × Envelope α)

/-- Envelope at `filename`, or none when no such file exists. -/
def getFile {α : Type} (disk : Disk α) (filename : Name) : Option (Envelope α) :=
  match disk with
  | [] => none
  | (n, e) :: rest => if n = filename then some e else getFile rest filename

/-- Remove the file at `filename` (no effect when absent). -/
def deleteFile {α : Type} (disk : Disk α) (filename : Name) : Disk α :=
  disk.filter (fun p => p.1 != filename)

/-- Atomically replace (or create) the file at `filename`. -/
def setFile {α : Type} (disk : Disk α) (filename : Name) (e : Envelope α) : Disk α :=
  (filename, e) :: deleteFile disk filename

/-- SaveDataFile (storage.go:306-356), success path: when the key argument is
nil a fresh object key `fresh` is minted (NewEncryptionKey); the envelope is
written to a temp file and renamed over `filename` in one atomic step. A
failed save never reaches the rename, so failure outcomes leave the disk
unchanged and are modelled at the call sites by each file's save outcome. -/
def SaveDataFile {α : Type} (k : Option Nat) (fresh : Nat) (filename : Name) (obj : α)
    (disk : Disk α) : Disk α :=
  setFile disk filename ⟨k.getD fresh, obj⟩

/-- ReadDataFile (storage.go:276-303), as a function of the disk: os.Open of a
missing file yields os.ErrNotExist; otherwise the envelope's key and decoded
object are returned. -/
def ReadDataFile {α : Type} (disk : Disk α) (filename : Name) : Except GoErr (Nat × α) :=
  match getFile disk filename with
  | some e => .ok (e.key, e.payload)
  | none => .error .errNotExist

/-- A backup record: for each of the N names of a multi-file commit, the
on-disk envelope at backup time (none when the file did not exist). Modelled
from the spec: the bodies of createBackup, backup.restore and backup.delete
are not under src/; spec 4.D fixes the record as a manifest of the N names
plus a copy of each original envelope. -/
abbrev BackupRec (α : Type) := List (Name × Option (Envelope α))

/-- Snapshot of the current on-disk envelopes of `files` (createBackup,
called at storage.go:207). Modelled from the spec (4.D). -/
def createBackup {α : Type} (disk : Disk α) (files : List Name) : BackupRec α :=
  files.map (fun f => (f, getFile disk f))

/-- Restore a backup record (backup.restore, called at storage.go:226).
Modelled from the spec (4.D and 4.G): each saved original is renamed back
into place, overwriting whatever is present; for a name that had no original
envelope the partial new file is discarded. -/
def restoreBackup {α : Type} (snap : BackupRec α) (disk : Disk α) : Disk α :=
  match snap with
  | [] => disk
  | (f, some e) :: rest => restoreBackup rest (setFile disk f e)
  | (f, none) :: rest => restoreBackup rest (deleteFile disk f)

/-- The called/committed flags captured by the commit closure
(storage.go:185). -/
structure ClosureState where
  called : Bool
  committed : Bool
deriving DecidableEq, Repr

/-- Filesystem state the commit closure acts on: the data files, the lock
files, and the backup records present under the root. -/
structure World (α : Type) where
  disk : Disk α
  locks : LockSet
  backups : List (BackupRec α)
deriving DecidableEq, Repr

/-- The N parallel SaveDataFile calls of the commit closure
(storage.go:212-223), over the zipped (name, key, object) triples: per-file
success is given by `saveOk` (a failed save leaves that file unchanged), and
the names whose save failed are collected as the aggregated error list. The
channel delivers errors in nondeterministic order in the source; the model
keeps file order, which fixes one interleaving of the aggregation. -/
def saveAll {α : Type} (saveOk : Name → Bool) (fresh : Name → Nat) :
    List (Name × Option Nat × α) → Disk α → Disk α × List Name
  | [], disk => (disk, [])
  | (f, k, obj) :: rest, disk =>
    if saveOk f then saveAll saveOk fresh rest (SaveDataFile k (fresh f) f obj disk)
    else
      let r := saveAll saveOk fresh rest disk
      (r.1, f :: r.2)

/-- What one invocation of the commit closure produces: its return value, the
filesystem afterwards, the closure flags afterwards, the caller's error
variable afterwards (none when the caller passed no pointer), and -- as
instrumentation for the statements below -- the backup record the invocation
created, if any. -/
structure CommitResult (α : Type) where
  ret : Option GoErr
  world : World α
  state : ClosureState
  callerErr : Option (Option GoErr)
  backupTaken : Option (BackupRec α)
deriving DecidableEq, Repr

/-- One invocation of the commit closure returned by OpenManyForUpdate
(storage.go:185-245). `commit` and the caller's error pointer `errp` are the
closure's arguments (`errp = none` models a nil pointer, `errp = some v` a
pointer whose error value is `v`); `st` the captured called/committed flags;
`w` the filesystem. `saveOk`, `fresh` and `backupOk` model the outcomes of
the I/O this invocation performs. Per storage.go:194-196 the error pointer is
redirected to the local return variable when it is nil or already holds an
error, so the active error cell starts nil in every case; the caller's
variable is written through only when the pointer was supplied and clean. -/
def commitClosure {α : Type} (files : List Name) (keys : List (Option Nat)) (objs : List α)
    (saveOk : Name → Bool) (fresh : Name → Nat) (backupOk : Bool)
    (st : ClosureState) (w : World α) (commit : Bool) (errp : Option (Option GoErr)) :
    CommitResult α :=
  if st.called then
    { ret := some (if st.committed then .errAlreadyCommitted else .errAlreadyRolledBack),
      world := w, state := st, callerErr := errp, backupTaken := none }
  else
    let useLocal := errp.isNone || (errp.getD none).isSome
    let putBack := fun (cell : Option GoErr) => if useLocal then errp else some cell
    if commit then
      if files.length > 1 && !backupOk then
        -- createBackup failed: set the error and return at once, without
        -- saving and without releasing the locks (storage.go:207-210).
        { ret := some .backupFailed, world := w, state := ⟨true, false⟩,
          callerErr := putBack (some .backupFailed), backupTaken := none }
      else
        let backup : Option (BackupRec α) :=
          if files.length > 1 then some (createBackup w.disk files) else none
        let saved := saveAll saveOk fresh (files.zip (keys.zip objs)) w.disk
        if saved.2 = [] then
          -- every save succeeded: delete the backup record, mark the closure
          -- committed, release the locks; an unlock error is reported only
          -- because no earlier error is pending (storage.go:231-240).
          let u := UnlockMany w.locks files
          { ret := u.1,
            world := { disk := saved.1, locks := u.2.1, backups := w.backups },
            state := ⟨true, true⟩, callerErr := putBack u.1, backupTaken := backup }
        else
          -- some save failed: restore the backup if one was taken, surface
          -- the aggregated save errors; the unlock error is dropped because
          -- an error is already pending (storage.go:224-240).
          let disk2 := match backup with
            | some b => restoreBackup b saved.1
            | none => saved.1
          let u := UnlockMany w.locks files
          { ret := some (.saveDataFileFailed saved.2),
            world := { disk := disk2, locks := u.2.1, backups := w.backups },
            state := ⟨true, false⟩,
            callerErr := putBack (some (.saveDataFileFailed saved.2)),
            backupTaken := backup }
    else
      -- rollback: release the locks and report ErrRolledBack unless an
      -- unlock error took the cell first (storage.go:238-243).
      let u := UnlockMany w.locks files
      let cell : Option GoErr := match u.1 with
        | some e => some e
        | none => some .errRolledBack
      { ret := cell, world := { disk := w.disk, locks := u.2.1, backups := w.backups },
        state := ⟨true, false⟩, callerErr := putBack cell, backupTaken := none }

/-- Outcome of one of the N parallel ReadDataFile calls of OpenManyForUpdate:
a key and object, os.ErrNotExist, or any other read error (corrupt envelope,
decode failure, I/O error). -/
inductive ReadOutcome (α : Type) where
  | ok (key : Nat) (obj : α)
  | notFound
  | fail
deriving DecidableEq, Repr

/-- Whether a read outcome is an error other than os.ErrNotExist (the test at
storage.go:175). -/
def isReadFail {α : Type} : ReadOutcome α → Bool
  | .fail => true
  | _ => false

/-- Keys collected by OpenManyForUpdate's read loop (storage.go:164-179): the
envelope key for a successful read, nil for a NotFound read. -/
def readKeys {α : Type} (readRes : Name → ReadOutcome α) (files : List Name) :
    List (Option Nat) :=
  files.map fun f =>
    match readRes f with
    | .ok k _ => some k
    | _ => none

/-- Names whose read failed with an error other than os.ErrNotExist (the
errorList of storage.go:172-179; the channel's arrival order is
nondeterministic in the source, the model keeps file order). -/
def readFails {α : Type} (readRes : Name → ReadOutcome α) (files : List Name) : List Name :=
  files.filter fun f => isReadFail (readRes f)

/-- OpenManyForUpdate (storage.go:147-183) up to returning the commit
closure: LockMany over the files, the N parallel reads with outcomes given by
`readRes`, and on any non-NotFound read error UnlockMany over the files and
an error return (no closure). Returns the collected keys (or the error) and
the lock files present afterwards. -/
def OpenManyForUpdate {α : Type} (lockOk : Name → Bool) (readRes : Name → ReadOutcome α)
    (held : LockSet) (files : List Name) :
    Except GoErr (List (Option Nat)) × LockSet :=
  let lm := LockMany lockOk held files
  match lm.err with
  | some e => (.error e, lm.held)
  | none =>
    if readFails readRes files = [] then (.ok (readKeys readRes files), lm.held)
    else
      let u := UnlockMany lm.held files
      (.error (.readDataFileFailed (readFails readRes files)), u.2.1)

/-- The FSFile fields the client's Sync and Free use: the remote file name
and the local-only flag. -/
structure FSFile where
  File : String
  LocalOnly : Bool
deriving DecidableEq, Repr

/-- A catalog item as produced by GlobFiles (the fields Sync and Free use). -/
structure ListItem where
  FSFile : FSFile
  Set : String
deriving DecidableEq, Repr

/-- blobPath (part_000:89-95): the content-addressed path of a file's blob,
the hash of the name (suffixed "-thumb" for thumbnails) fanned out under its
first two characters. `hashString` models the storage's keyed HashString,
whose body is not under src/. -/
def blobPath (hashString : String → String) (name : String) (thumb : Bool) : String :=
  let nm := if thumb then name ++ "-thumb" else name
  let n := hashString nm
  n.take 2 ++ "/" ++ n

/-- Go map assignment files[k] = v over an association list: replace the
entry for an existing key, append a new one otherwise. -/
def mapSet (m : List (String × ListItem)) (k : String) (v : ListItem) :
    List (String × ListItem) :=
  if m.any (fun p => p.1 == k) then m.map (fun p => if p.1 == k then (k, v) else p)
  else m ++ [(k, v)]

/-- The filtering loop of Sync (part_000:19-28): drop items marked
local-only and items whose blob path already exists; key the survivors by
file name in the files map `m`. -/
def syncFiles (hashString : String → String) (blobExists : String → Bool) :
    List ListItem → List (String × ListItem) → List (String × ListItem)
  | [], m => m
  | item :: rest, m =>
    if item.FSFile.LocalOnly then syncFiles hashString blobExists rest m
    else if blobExists (blobPath hashString item.FSFile.File false) then
      syncFiles hashString blobExists rest m
    else syncFiles hashString blobExists rest (mapSet m item.FSFile.File item)

/-- Number of downloadWorker goroutines Sync spawns (the loop bound at
part_000:32). -/
def numDownloadWorkers : Nat := 5

/-- What Sync produces: the file names handed to the download worker pool,
the line printed, and the returned error. -/
structure SyncResult where
  downloads : List String
  msg : String
  err : Option GoErr
deriving DecidableEq, Repr

/-- Sync (part_000:14-58): filter the matched items into the files map, hand
each entry to the worker pool (per-file outcomes given by `downloadOk`; the
workers' completion order is nondeterministic in the source and only the
counts reach the output), and print the summary line; on failures the first
error wraps the rest. -/
def Sync (hashString : String → String) (blobExists : String → Bool)
    (downloadOk : String → Bool) (list : List ListItem) : SyncResult :=
  let files := syncFiles hashString blobExists list []
  let failed := (files.map Prod.fst).filter (fun f => !downloadOk f)
  let n := files.length
  let k := failed.length
  if n = 0 then { downloads := [], msg := "All files already in sync.", err := none }
  else if k = 0 then
    { downloads := files.map Prod.fst,
      msg := "Successfully downloaded " ++ toString n ++ " file(s).", err := none }
  else
    { downloads := files.map Prod.fst,
      msg := "Successfully downloaded " ++ toString (n - k) ++ " file(s), " ++
        toString k ++ " failed.",
      err := some (.downloadFailed failed) }

/-- The loop of Free (part_000:67-80), over the list of blob paths present:
skip items marked local-only and items whose blob path is absent; remove the
rest one at a time (removal outcomes given by `removeOk`), returning at the
first failed removal. Returns the blobs left, the number of files removed,
and the error if any. -/
def freeLoop (hashString : String → String) (removeOk : String → Bool)
    (blobs : List String) : List ListItem → List String × Nat × Option GoErr
  | [] => (blobs, 0, none)
  | item :: rest =>
    if item.FSFile.LocalOnly then freeLoop hashString removeOk blobs rest
    else
      let fn := blobPath hashString item.FSFile.File false
      if fn ∈ blobs then
        if removeOk fn then
          let r := freeLoop hashString removeOk (blobs.erase fn) rest
          (r.1, r.2.1 + 1, r.2.2)
        else (blobs, 0, some (.blobRemoveFailed fn))
      else freeLoop hashString removeOk blobs rest

/-- Free (part_000:62-87): run the loop; a removal error is returned at once
(nothing is printed and the earlier removals stay); otherwise the summary
line is printed. Returns the blobs left, the line printed, and the error. -/
def Free (hashString : String → String) (removeOk : String → Bool)
    (blobs : List String) (list : List ListItem) : List String × String × Option GoErr :=
  let r := freeLoop hashString removeOk blobs list
  match r.2.2 with
  | some e => (r.1, "", some e)
  | none =>
    if r.2.1 = 0 then (r.1, "There are no files to delete.", none)
    else (r.1, "Successfully freed " ++ toString r.2.1 ++ " file(s).", none)

/-- Sample catalog items named f0, f1, ... (not local-only), for the spec's
concrete download scenario. -/
def sampleItem (i : Nat) : ListItem := ⟨⟨"f" ++ toString i, false⟩, "0"⟩

/-- Twelve candidate items, f0 through f11. -/
def sampleList : List ListItem := (List.range 12).map sampleItem

/-- Blob presence for the concrete scenario: the blob paths of f0, f1 and f2
are already present (the identity function stands for the keyed hash). -/
def sampleExists (p : String) : Bool :=
  p == blobPath id "f0" false || p == blobPath id "f1" false || p == blobPath id "f2" false

end C2FmZQ

namespace C2FmZQ

theorem getFile_deleteFile_self {α : Type} (disk : Disk α) (f : Name) :
    getFile (deleteFile disk f) f = none := by
  induction disk with
  | nil => rfl
  | cons p rest ih =>
    obtain ⟨n, e⟩ := p
    by_cases hnf : n = f <;> simp [deleteFile, List.filter_cons, hnf, getFile] at ih ⊢ <;>
      exact ih

theorem getFile_deleteFile_ne {α : Type} (disk : Disk α) (f g : Name) (h : g ≠ f) :
    getFile (deleteFile disk f) g = getFile disk g := by
  have hfg : ¬f = g := fun hh => h hh.symm
  induction disk with
  | nil => rfl
  | cons p rest ih =>
    obtain ⟨n, e⟩ := p
    by_cases hnf : n = f
    · subst hnf
      simp [deleteFile, List.filter_cons, getFile, hfg] at ih ⊢
      exact ih
    · by_cases hng : n = g
      · simp [deleteFile, List.filter_cons, hnf, getFile, hng, hfg, h]
      · simp [deleteFile, List.filter_cons, hnf, getFile, hng] at ih ⊢
        exact ih

theorem getFile_setFile_self {α : Type} (disk : Disk α) (f : Name) (e : Envelope α) :
    getFile (setFile disk f e) f = some e := by
  simp [setFile, getFile]

theorem getFile_setFile_ne {α : Type} (disk : Disk α) (f g : Name) (e : Envelope α)
    (h : g ≠ f) :
    getFile (setFile disk f e) g = getFile disk g := by
  have hfg : ¬f = g := fun hh => h hh.symm
  simp [setFile, getFile, hfg]
  exact getFile_deleteFile_ne disk f g h

/-- C7: for every object, every name and every key argument (nil or a reused
ObjectKey), a successful SaveDataFile followed by ReadDataFile of the same
name succeeds and yields the saved object back, under the key that was used
(the argument when supplied, the freshly minted one otherwise). -/
theorem saveDataFile_readDataFile_roundtrip {α : Type} (k : Option Nat) (fresh : Nat)
    (filename : Name) (obj : α) (disk : Disk α) :
    ReadDataFile (SaveDataFile k fresh filename obj disk) filename = .ok (k.getD fresh, obj) := by
  simp [ReadDataFile, SaveDataFile, getFile_setFile_self]

/-- C4: once the commit closure has been called, every later invocation, with
any arguments, changes neither the filesystem nor the closure flags nor the
caller's error variable, performs no save and no unlock, and returns
AlreadyCommitted when the first invocation committed and AlreadyRolledBack
otherwise. -/
theorem commitClosure_at_most_once {α : Type} (files : List Name) (keys : List (Option Nat))
    (objs : List α) (saveOk : Name → Bool) (fresh : Name → Nat) (backupOk : Bool)
    (st : ClosureState) (w : World α) (commit : Bool) (errp : Option (Option GoErr))
    (hc : st.called = true) :
    commitClosure files keys objs saveOk fresh backupOk st w commit errp =
      { ret := some (if st.committed then .errAlreadyCommitted else .errAlreadyRolledBack),
        world := w, state := st, callerErr := errp, backupTaken := none } := by
  simp [commitClosure, hc]

/-- Witness for C4 at a concrete input: a closure already rolled back returns
AlreadyRolledBack and leaves the world, the flags and the caller's error
variable alone. -/
theorem commitClosure_at_most_once_witness :
    commitClosure [0] [some 1] [(7 : Nat)] (fun _ => true) (fun _ => 0) true
        ⟨true, false⟩ ⟨[], [0], []⟩ true (some none) =
      { ret := some .errAlreadyRolledBack, world := ⟨[], [0], []⟩,
        state := ⟨true, false⟩, callerErr := some none, backupTaken := none } := by
  exact commitClosure_at_most_once [0] [some 1] [(7 : Nat)] (fun _ => true) (fun _ => 0) true
    ⟨true, false⟩ ⟨[], [0], []⟩ true (some none) rfl

/-- C9: if unlinking some lock file in UnlockMany's sequence fails, UnlockMany
returns that error immediately: the attempted unlinks are exactly the
successful ones before the failing name plus the failing name itself, and the
lock files still present are those of the pre-failure state, so every later
name's lock file is left in place. -/
theorem unlockMany_stops_at_first_failure (held h1 : LockSet) (pre post : List Name)
    (f : Name) (hpre : runUnlocks held pre = some h1) (hf : f ∉ h1) :
    UnlockMany held (pre ++ f :: post) = (some (.removeFailed f), h1, pre ++ [f]) := by
  induction pre generalizing held with
  | nil =>
    simp only [runUnlocks, Option.some.injEq] at hpre
    subst hpre
    simp [UnlockMany, unlockManyLoop, Unlock, hf]
  | cons p ps ih =>
    simp only [runUnlocks] at hpre
    simp only [UnlockMany, List.cons_append, unlockManyLoop]
    unfold Unlock at hpre ⊢
    by_cases hp : p ∈ held
    · simp only [hp, if_pos] at hpre ⊢
      have := ih (held.erase p) hpre
      simp only [UnlockMany] at this
      simp [this]
    · simp [hp] at hpre

/-- Witness for C9 at a concrete input: with lock files for names 5 and 7
present, unlinking [5, 6, 7] fails at 6; the error is 6's, only 5 and 6 were
attempted, and name 7's lock file is still present. -/
theorem unlockMany_stops_at_first_failure_witness :
    UnlockMany [5, 7] ([5] ++ 6 :: [7]) = (some (.removeFailed 6), [7], [5] ++ [6]) :=
  unlockMany_stops_at_first_failure [5, 7] [7] [5] [7] 6 (by decide) (by decide)

/-- C2 (code bug): UnlockMany does not unlink in reverse lexicographic order.
With the lock files of names 0 and 1 present, UnlockMany([0, 1]) attempts the
unlinks in the order [0, 1] -- the input order, because the source reverse
sorts the original slice but iterates the pre-sort copy -- while the spec's
reverse lexicographic order is [1, 0]. -/
theorem unlockMany_order_is_input_order :
    (UnlockMany [0, 1] [0, 1]).2.2 = [0, 1] ∧
    specUnlockOrder [0, 1] = [1, 0] ∧
    (UnlockMany [0, 1] [0, 1]).2.2 ≠ specUnlockOrder [0, 1] := by
  refine ⟨by decide, ?_, ?_⟩ <;> simp [specUnlockOrder, sortNames, List.insertionSort,
    List.orderedInsert, UnlockMany, unlockManyLoop, Unlock]

/-- C3 (code bug): LockMany([0, 1, 2]) with the acquisition of 2 failing
acquires 0 then 1 in sorted order, returns 2's error, and releases both
acquired locks -- no lock file remains -- but the release sequence is [0, 1],
the acquisition order, not its reverse [1, 0]: the release goes through
UnlockMany, which iterates its input in order. -/
theorem lockMany_release_order_not_reversed :
    (LockMany (fun f => f != 2) [] [0, 1, 2]).acquired = [0, 1] ∧
    (LockMany (fun f => f != 2) [] [0, 1, 2]).err = some (.lockFailed 2) ∧
    (LockMany (fun f => f != 2) [] [0, 1, 2]).held = [] ∧
    (LockMany (fun f => f != 2) [] [0, 1, 2]).released = [0, 1] ∧
    (LockMany (fun f => f != 2) [] [0, 1, 2]).released ≠
      ((LockMany (fun f => f != 2) [] [0, 1, 2]).acquired).reverse := by
  refine ⟨?_, ?_, ?_, ?_, ?_⟩ <;>
    simp [LockMany, sortNames, List.insertionSort, List.orderedInsert, lockManyLoop,
      Lock, UnlockMany, unlockManyLoop, Unlock]

theorem unlockManyLoop_all (names : List Name) :
    ∀ held : LockSet, names.Nodup → held.Nodup → (∀ f ∈ names, f ∈ held) →
      (unlockManyLoop held names).1 = none ∧
      (unlockManyLoop held names).2.2 = names ∧
      ∀ g, g ∈ (unlockManyLoop held names).2.1 ↔ (g ∈ held ∧ g ∉ names) := by
  induction names with
  | nil => intro held _ _ _; simp [unlockManyLoop]
  | cons f fs ih =>
    intro held hn hh hmem
    have hf : f ∈ held := hmem f (by simp)
    have hstep : Unlock held f = .ok (held.erase f) := by simp [Unlock, hf]
    have hfs : ∀ g ∈ fs, g ∈ held.erase f := by
      intro g hg
      have hgf : g ≠ f := by
        rintro rfl; exact (List.nodup_cons.mp hn).1 hg
      exact (List.mem_erase_of_ne hgf).mpr (hmem g (by simp [hg]))
    have hrec := ih (held.erase f) (List.nodup_cons.mp hn).2 (hh.erase f) hfs
    refine ⟨?_, ?_, ?_⟩
    · simp only [unlockManyLoop, hstep]; exact hrec.1
    · simp only [unlockManyLoop, hstep]; simp [hrec.2.1]
    · intro g
      simp only [unlockManyLoop, hstep]
      rw [hrec.2.2 g, hh.mem_erase_iff]
      constructor
      · rintro ⟨⟨hgf, hgh⟩, hgfs⟩
        exact ⟨hgh, by simp [hgf, hgfs]⟩
      · rintro ⟨hgh, hgcons⟩
        simp only [List.mem_cons, not_or] at hgcons
        exact ⟨⟨hgcons.1, hgh⟩, hgcons.2⟩

theorem lockManyLoop_all (lockOk : Name → Bool) (l : List Name) :
    ∀ held locks, (∀ f ∈ l, lockOk f = true) →
      lockManyLoop lockOk held locks l = ⟨none, held ++ l, locks ++ l, []⟩ := by
  induction l with
  | nil => intro held locks _; simp [lockManyLoop]
  | cons f fs ih =>
    intro held locks h
    have hf : lockOk f = true := h f (by simp)
    have hstep : Lock lockOk held f = .ok (held ++ [f]) := by simp [Lock, hf]
    simp only [lockManyLoop, hstep]
    rw [ih (held ++ [f]) (locks ++ [f]) (fun g hg => h g (by simp [hg]))]
    simp

/-- C5: the first invocation of the commit closure with do_commit false
releases the locks of all N names (and only those), and sets the caller's
error variable to ErrRolledBack exactly when the caller supplied a clean
error pointer: a pointer already holding an error keeps that error, and no
pointer means nothing is written back. -/
theorem commitClosure_rollback_first_call {α : Type} (files : List Name)
    (keys : List (Option Nat)) (objs : List α) (saveOk : Name → Bool) (fresh : Name → Nat)
    (backupOk : Bool) (w : World α) (errp : Option (Option GoErr))
    (hnf : files.Nodup) (hnl : w.locks.Nodup) (hmem : ∀ f ∈ files, f ∈ w.locks) :
    (∀ g, g ∈ (commitClosure files keys objs saveOk fresh backupOk ⟨false, false⟩ w false
        errp).world.locks ↔ (g ∈ w.locks ∧ g ∉ files)) ∧
    (commitClosure files keys objs saveOk fresh backupOk ⟨false, false⟩ w false errp).ret =
      some .errRolledBack ∧
    (errp = some none →
      (commitClosure files keys objs saveOk fresh backupOk ⟨false, false⟩ w false
        errp).callerErr = some (some .errRolledBack)) ∧
    (∀ e : GoErr, errp = some (some e) →
      (commitClosure files keys objs saveOk fresh backupOk ⟨false, false⟩ w false
        errp).callerErr = some (some e)) ∧
    (errp = none →
      (commitClosure files keys objs saveOk fresh backupOk ⟨false, false⟩ w false
        errp).callerErr = none) := by
  have hu := unlockManyLoop_all files w.locks hnf hnl hmem
  refine ⟨?_, ?_, ?_, ?_, ?_⟩
  · intro g
    simpa [commitClosure, UnlockMany] using hu.2.2 g
  · simp [commitClosure, UnlockMany, hu.1]
  · rintro rfl
    simp [commitClosure, UnlockMany, hu.1]
  · rintro e rfl
    simp [commitClosure, UnlockMany, hu.1]
  · rintro rfl
    simp [commitClosure, UnlockMany, hu.1]

/-- Witness for C5 at a concrete input: one name, its lock held, the caller's
pointer holding an in-flight error; the lock is released and the in-flight
error is preserved instead of being overwritten with ErrRolledBack. -/
theorem commitClosure_rollback_first_call_witness :
    (∀ g, g ∈ (commitClosure [0] [some 1] [(7 : Nat)] (fun _ => true) (fun _ => 0) true
        ⟨false, false⟩ ⟨[], [0], []⟩ false (some (some (.lockFailed 9)))).world.locks ↔
      (g ∈ [0] ∧ g ∉ [0])) ∧
    (commitClosure [0] [some 1] [(7 : Nat)] (fun _ => true) (fun _ => 0) true
      ⟨false, false⟩ ⟨[], [0], []⟩ false (some (some (.lockFailed 9)))).ret =
        some .errRolledBack ∧
    (some (some (.lockFailed 9)) = some (none : Option GoErr) →
      (commitClosure [0] [some 1] [(7 : Nat)] (fun _ => true) (fun _ => 0) true
        ⟨false, false⟩ ⟨[], [0], []⟩ false (some (some (.lockFailed 9)))).callerErr =
          some (some .errRolledBack)) ∧
    (∀ e : GoErr, some (some (GoErr.lockFailed 9)) = some (some e) →
      (commitClosure [0] [some 1] [(7 : Nat)] (fun _ => true) (fun _ => 0) true
        ⟨false, false⟩ ⟨[], [0], []⟩ false (some (some (.lockFailed 9)))).callerErr =
          some (some e)) ∧
    (some (some (GoErr.lockFailed 9)) = (none : Option (Option GoErr)) →
      (commitClosure [0] [some 1] [(7 : Nat)] (fun _ => true) (fun _ => 0) true
        ⟨false, false⟩ ⟨[], [0], []⟩ false (some (some (.lockFailed 9)))).callerErr =
          none) := by
  exact commitClosure_rollback_first_call [0] [some 1] [(7 : Nat)] (fun _ => true)
    (fun _ => 0) true ⟨[], [0], []⟩ (some (some (.lockFailed 9)))
    (by decide) (by decide) (by decide)

/-- C6: in OpenManyForUpdate's read phase, when some read fails with an error
other than os.ErrNotExist the call returns an error and every one of the N
just-acquired locks is released again (the lock files present are exactly
those present before the call); when no read fails that way, the call returns
the collected keys, and the key paired with each name is nil exactly for a
NotFound read and the envelope's key for a successful read. -/
theorem openManyForUpdate_read_phase {α : Type} (lockOk : Name → Bool)
    (readRes : Name → ReadOutcome α) (held : LockSet) (files : List Name)
    (hlock : ∀ f ∈ files, lockOk f = true) (hnf : files.Nodup) (hnh : held.Nodup)
    (hdisj : ∀ f ∈ files, f ∉ held) :
    ((∃ f ∈ files, isReadFail (readRes f) = true) →
      (OpenManyForUpdate lockOk readRes held files).1 =
        .error (.readDataFileFailed (readFails readRes files)) ∧
      ∀ g, g ∈ (OpenManyForUpdate lockOk readRes held files).2 ↔ g ∈ held) ∧
    ((∀ f ∈ files, isReadFail (readRes f) = false) →
      (OpenManyForUpdate lockOk readRes held files).1 = .ok (readKeys readRes files) ∧
      (readKeys readRes files).length = files.length ∧
      ∀ p ∈ files.zip (readKeys readRes files),
        (readRes p.1 = .notFound → p.2 = none) ∧
        (∀ k o, readRes p.1 = .ok k o → p.2 = some k)) := by
  have hperm := List.perm_insertionSort (fun a b => a ≤ b) files
  have hsorted : ∀ f ∈ sortNames files, lockOk f = true := fun f hf =>
    hlock f (hperm.mem_iff.mp hf)
  have hlm : LockMany lockOk held files = ⟨none, held ++ sortNames files, sortNames files, []⟩ := by
    rw [LockMany, lockManyLoop_all lockOk (sortNames files) held [] hsorted]
    simp
  constructor
  · rintro ⟨f0, hf0, hfail⟩
    have hmemf : f0 ∈ readFails readRes files :=
      List.mem_filter.mpr ⟨hf0, by simp [hfail]⟩
    have hne : readFails readRes files ≠ [] := List.ne_nil_of_mem hmemf
    have hbig : (held ++ sortNames files).Nodup := by
      rw [List.nodup_append]
      refine ⟨hnh, hperm.nodup_iff.mpr hnf, ?_⟩
      intro a ha hb
      exact hdisj a (hperm.mem_iff.mp hb) ha
    have hmem2 : ∀ f ∈ files, f ∈ held ++ sortNames files := by
      intro f hf
      exact List.mem_append.mpr (Or.inr (hperm.mem_iff.mpr hf))
    have hu := unlockManyLoop_all files (held ++ sortNames files) hnf hbig hmem2
    constructor
    · simp [OpenManyForUpdate, hlm, hne]
    · intro g
      have hiff : g ∈ (unlockManyLoop (held ++ sortNames files) files).2.1 ↔
          (g ∈ held ++ sortNames files ∧ g ∉ files) := hu.2.2 g
      have : (OpenManyForUpdate lockOk readRes held files).2 =
          (unlockManyLoop (held ++ sortNames files) files).2.1 := by
        simp [OpenManyForUpdate, hlm, hne, UnlockMany]
      rw [this, hiff]
      constructor
      · rintro ⟨hg1, hg2⟩
        rcases List.mem_append.mp hg1 with h | h
        · exact h
        · exact absurd (hperm.mem_iff.mp h) hg2
      · intro hg
        exact ⟨List.mem_append.mpr (Or.inl hg), fun hgf => hdisj g hgf hg⟩
  · intro hok
    have hnil : readFails readRes files = [] := by
      rw [readFails, List.filter_eq_nil_iff]
      intro a ha
      simp [hok a ha]
    refine ⟨by simp [OpenManyForUpdate, hlm, hnil], by simp [readKeys], ?_⟩
    have hzip : files.zip (readKeys readRes files) =
        files.map (fun f => (f, match readRes f with | .ok k _ => some k | _ => none)) := by
      rw [readKeys]
      have := List.zip_map' id
        (fun f => match readRes f with | .ok k _ => some k | _ => none) files
      simpa using this
    intro p hp
    rw [hzip] at hp
    obtain ⟨a, _, rfl⟩ := List.mem_map.mp hp
    constructor
    · intro hnfound; simp [hnfound]
    · intro k o hfound; simp [hfound]

/-- Witness for C6 at a concrete input: two names, name 0's read failing with
a non-NotFound error; the call returns the aggregated read error and the lock
set is back to what it was before the call (empty). -/
theorem openManyForUpdate_read_phase_witness :
    ((∃ f ∈ [0, 1], isReadFail ((fun f => if f = 0 then ReadOutcome.fail
        else ReadOutcome.notFound (α := Nat)) f) = true) →
      (OpenManyForUpdate (fun _ => true) (fun f => if f = 0 then ReadOutcome.fail
          else ReadOutcome.notFound (α := Nat)) [] [0, 1]).1 =
        .error (.readDataFileFailed (readFails (fun f => if f = 0 then ReadOutcome.fail
          else ReadOutcome.notFound (α := Nat)) [0, 1])) ∧
      ∀ g, g ∈ (OpenManyForUpdate (fun _ => true) (fun f => if f = 0 then ReadOutcome.fail
        else ReadOutcome.notFound (α := Nat)) [] [0, 1]).2 ↔ g ∈ ([] : LockSet)) ∧
    ((∀ f ∈ [0, 1], isReadFail ((fun f => if f = 0 then ReadOutcome.fail
        else ReadOutcome.notFound (α := Nat)) f) = false) →
      (OpenManyForUpdate (fun _ => true) (fun f => if f = 0 then ReadOutcome.fail
          else ReadOutcome.notFound (α := Nat)) [] [0, 1]).1 =
        .ok (readKeys (fun f => if f = 0 then ReadOutcome.fail
          else ReadOutcome.notFound (α := Nat)) [0, 1]) ∧
      (readKeys (fun f => if f = 0 then ReadOutcome.fail
        else ReadOutcome.notFound (α := Nat)) [0, 1]).length = ([0, 1] : List Name).length ∧
      ∀ p ∈ ([0, 1] : List Name).zip (readKeys (fun f => if f = 0 then ReadOutcome.fail
          else ReadOutcome.notFound (α := Nat)) [0, 1]),
        ((if p.1 = 0 then ReadOutcome.fail else ReadOutcome.notFound (α := Nat)) =
            .notFound → p.2 = none) ∧
        (∀ k o, (if p.1 = 0 then ReadOutcome.fail else ReadOutcome.notFound (α := Nat)) =
            .ok k o → p.2 = some k)) := by
  exact openManyForUpdate_read_phase (fun _ => true)
    (fun f => if f = 0 then ReadOutcome.fail else ReadOutcome.notFound (α := Nat)) [] [0, 1]
    (by decide) (by decide) (by decide) (by decide)

theorem getFile_restoreBackup_not_mem {α : Type} (snap : BackupRec α) :
    ∀ (disk : Disk α) (f : Name), f ∉ snap.map Prod.fst →
      getFile (restoreBackup snap disk) f = getFile disk f := by
  induction snap with
  | nil => intro disk f _; rfl
  | cons p rest ih =>
    intro disk f h
    obtain ⟨g, v⟩ := p
    simp only [List.map_cons, List.mem_cons, not_or] at h
    cases v with
    | some e =>
      show getFile (restoreBackup rest (setFile disk g e)) f = getFile disk f
      rw [ih _ _ h.2, getFile_setFile_ne disk g f e h.1]
    | none =>
      show getFile (restoreBackup rest (deleteFile disk g)) f = getFile disk f
      rw [ih _ _ h.2, getFile_deleteFile_ne disk g f h.1]

theorem getFile_restoreBackup_mem {α : Type} (snap : BackupRec α) :
    ∀ (disk : Disk α) (f : Name) (v : Option (Envelope α)),
      (snap.map Prod.fst).Nodup → (f, v) ∈ snap →
      getFile (restoreBackup snap disk) f = v := by
  induction snap with
  | nil => intro disk f v _ hmem; cases hmem
  | cons p rest ih =>
    intro disk f v hnd hmem
    obtain ⟨g, u⟩ := p
    simp only [List.map_cons, List.nodup_cons] at hnd
    rcases List.mem_cons.mp hmem with heq | htail
    · cases heq
      cases v with
      | some e =>
        show getFile (restoreBackup rest (setFile disk f e)) f = some e
        rw [getFile_restoreBackup_not_mem rest _ _ hnd.1, getFile_setFile_self]
      | none =>
        show getFile (restoreBackup rest (deleteFile disk f)) f = none
        rw [getFile_restoreBackup_not_mem rest _ _ hnd.1, getFile_deleteFile_self]
    · cases u with
      | some e =>
        show getFile (restoreBackup rest (setFile disk g e)) f = v
        exact ih _ f v hnd.2 htail
      | none =>
        show getFile (restoreBackup rest (deleteFile disk g)) f = v
        exact ih _ f v hnd.2 htail

theorem saveAll_failed {α : Type} (saveOk : Name → Bool) (fresh : Name → Nat)
    (l : List (Name × Option Nat × α)) :
    ∀ disk : Disk α, (saveAll saveOk fresh l disk).2 =
      (l.map Prod.fst).filter (fun f => !saveOk f) := by
  induction l with
  | nil => intro disk; rfl
  | cons t rest ih =>
    intro disk
    obtain ⟨f, k, obj⟩ := t
    by_cases h : saveOk f <;> simp [saveAll, h, ih]

/-- C1: on the first invocation of the commit closure with do_commit true, a
backup record holding the pre-save on-disk envelopes of all N names is taken
exactly when N is greater than 1 (its contents are the envelopes as they are
before any SaveDataFile runs); when some of the N parallel saves fail and a
backup was taken, every one of the N names holds its original envelope again
afterwards, the aggregated save errors are the closure's result and the
closure is not committed; when every save succeeds, no backup record remains
on disk and the closure is committed. -/
theorem commitClosure_backup_protocol {α : Type} (files : List Name)
    (keys : List (Option Nat)) (objs : List α) (saveOk : Name → Bool) (fresh : Name → Nat)
    (w : World α) (errp : Option (Option GoErr)) (hnf : files.Nodup)
    (hk : files.length ≤ keys.length) (ho : files.length ≤ objs.length) :
    (commitClosure files keys objs saveOk fresh true ⟨false, false⟩ w true errp).backupTaken =
      (if files.length > 1 then some (createBackup w.disk files) else none) ∧
    (files.filter (fun f => !saveOk f) ≠ [] → files.length > 1 →
      (∀ f ∈ files,
        getFile (commitClosure files keys objs saveOk fresh true ⟨false, false⟩ w true
          errp).world.disk f = getFile w.disk f) ∧
      (commitClosure files keys objs saveOk fresh true ⟨false, false⟩ w true errp).ret =
        some (.saveDataFileFailed (files.filter (fun f => !saveOk f))) ∧
      (commitClosure files keys objs saveOk fresh true ⟨false, false⟩ w true
        errp).state.committed = false ∧
      (commitClosure files keys objs saveOk fresh true ⟨false, false⟩ w true
        errp).world.backups = w.backups) ∧
    (files.filter (fun f => !saveOk f) = [] →
      (commitClosure files keys objs saveOk fresh true ⟨false, false⟩ w true
        errp).state.committed = true ∧
      (commitClosure files keys objs saveOk fresh true ⟨false, false⟩ w true
        errp).world.backups = w.backups) := by
  have hfst : (files.zip (keys.zip objs)).map Prod.fst = files := by
    have hlen : files.length ≤ (keys.zip objs).length := by
      rw [List.length_zip]; exact le_min hk ho
    exact List.map_fst_zip files (keys.zip objs) hlen
  have hsaved : (saveAll saveOk fresh (files.zip (keys.zip objs)) w.disk).2 =
      files.filter (fun f => !saveOk f) := by
    rw [saveAll_failed, hfst]
  refine ⟨?_, ?_, ?_⟩
  · by_cases hs : (saveAll saveOk fresh (files.zip (keys.zip objs)) w.disk).2 = [] <;>
      simp [commitClosure, hs]
  · intro hfail hlen
    have hs : ¬(saveAll saveOk fresh (files.zip (keys.zip objs)) w.disk).2 = [] := by
      rw [hsaved]; exact hfail
    refine ⟨?_, ?_, ?_, ?_⟩
    · intro f hf
      have hrec : (commitClosure files keys objs saveOk fresh true ⟨false, false⟩ w true
          errp).world.disk =
          restoreBackup (createBackup w.disk files)
            (saveAll saveOk fresh (files.zip (keys.zip objs)) w.disk).1 := by
        simp [commitClosure, hs, hlen]
      rw [hrec]
      refine getFile_restoreBackup_mem (createBackup w.disk files) _ f (getFile w.disk f)
        ?_ ?_
      · have hcb : (createBackup w.disk files).map Prod.fst = files := by
          simp only [createBackup, List.map_map]
          calc List.map (Prod.fst ∘ fun f => (f, getFile w.disk f)) files
              = List.map id files := List.map_congr_left (fun a _ => rfl)
            _ = files := List.map_id files
        rw [hcb]; exact hnf
      · unfold createBackup
        exact List.mem_map.mpr ⟨f, hf, rfl⟩
    · have hret : (commitClosure files keys objs saveOk fresh true ⟨false, false⟩ w true
          errp).ret = some (.saveDataFileFailed
            (saveAll saveOk fresh (files.zip (keys.zip objs)) w.disk).2) := by
        simp [commitClosure, hs]
      rw [hret, hsaved]
    · simp [commitClosure, hs]
    · simp [commitClosure, hs, hlen]
  · intro hok
    have hs : (saveAll saveOk fresh (files.zip (keys.zip objs)) w.disk).2 = [] := by
      rw [hsaved]; exact hok
    constructor <;> simp [commitClosure, hs]

/-- Witness for C1 at a concrete input: a two-file commit in which the save
of name 1 fails; the backup of both pre-save envelopes is taken, name 0's
envelope (overwritten by its successful save) and name 1's are back to their
originals, and the aggregated save error names 1. -/
theorem commitClosure_backup_protocol_witness :
    (commitClosure [0, 1] [some 3, none] [(10 : Nat), 20] (fun f => f == 0) (fun _ => 9)
        true ⟨false, false⟩ ⟨[(0, ⟨3, 1⟩)], [0, 1], []⟩ true (some none)).backupTaken =
      (if ([0, 1] : List Name).length > 1 then
        some (createBackup ([(0, ⟨3, 1⟩)] : Disk Nat) [0, 1]) else none) ∧
    (([0, 1] : List Name).filter (fun f => !(f == 0)) ≠ [] → ([0, 1] : List Name).length > 1 →
      (∀ f ∈ ([0, 1] : List Name),
        getFile (commitClosure [0, 1] [some 3, none] [(10 : Nat), 20] (fun f => f == 0)
          (fun _ => 9) true ⟨false, false⟩ ⟨[(0, ⟨3, 1⟩)], [0, 1], []⟩ true
          (some none)).world.disk f = getFile ([(0, ⟨3, 1⟩)] : Disk Nat) f) ∧
      (commitClosure [0, 1] [some 3, none] [(10 : Nat), 20] (fun f => f == 0) (fun _ => 9)
        true ⟨false, false⟩ ⟨[(0, ⟨3, 1⟩)], [0, 1], []⟩ true (some none)).ret =
          some (.saveDataFileFailed (([0, 1] : List Name).filter (fun f => !(f == 0)))) ∧
      (commitClosure [0, 1] [some 3, none] [(10 : Nat), 20] (fun f => f == 0) (fun _ => 9)
        true ⟨false, false⟩ ⟨[(0, ⟨3, 1⟩)], [0, 1], []⟩ true
        (some none)).state.committed = false ∧
      (commitClosure [0, 1] [some 3, none] [(10 : Nat), 20] (fun f => f == 0) (fun _ => 9)
        true ⟨false, false⟩ ⟨[(0, ⟨3, 1⟩)], [0, 1], []⟩ true
        (some none)).world.backups = []) ∧
    (([0, 1] : List Name).filter (fun f => !(f == 0)) = [] →
      (commitClosure [0, 1] [some 3, none] [(10 : Nat), 20] (fun f => f == 0) (fun _ => 9)
        true ⟨false, false⟩ ⟨[(0, ⟨3, 1⟩)], [0, 1], []⟩ true
        (some none)).state.committed = true ∧
      (commitClosure [0, 1] [some 3, none] [(10 : Nat), 20] (fun f => f == 0) (fun _ => 9)
        true ⟨false, false⟩ ⟨[(0, ⟨3, 1⟩)], [0, 1], []⟩ true
        (some none)).world.backups = []) := by
  exact commitClosure_backup_protocol [0, 1] [some 3, none] [(10 : Nat), 20]
    (fun f => f == 0) (fun _ => 9) ⟨[(0, ⟨3, 1⟩)], [0, 1], []⟩ (some none)
    (by decide) (by decide) (by decide)

theorem mapSet_key (m : List (String × ListItem)) (k : String) (v : ListItem) (f : String) :
    (∃ p ∈ mapSet m k v, p.1 = f) ↔ (f = k ∨ ∃ p ∈ m, p.1 = f) := by
  unfold mapSet
  by_cases hc : m.any (fun p => p.1 == k)
  · simp only [hc, if_true]
    constructor
    · rintro ⟨p, hp, rfl⟩
      obtain ⟨q, hq, rfl⟩ := List.mem_map.mp hp
      by_cases hqk : q.1 == k
      · exact Or.inl (by simp [hqk])
      · exact Or.inr ⟨q, hq, by simp [hqk]⟩
    · rintro (rfl | ⟨p, hp, rfl⟩)
      · obtain ⟨q, hq, hqk⟩ := List.any_eq_true.mp hc
        refine ⟨(f, v), List.mem_map.mpr ⟨q, hq, by simp [hqk]⟩, rfl⟩
      · by_cases hpk : p.1 == k
        · refine ⟨(k, v), List.mem_map.mpr ⟨p, hp, by simp [hpk]⟩, ?_⟩
          exact (eq_of_beq hpk).symm
        · exact ⟨p, List.mem_map.mpr ⟨p, hp, by simp [hpk]⟩, rfl⟩
  · simp only [hc, if_false]
    constructor
    · rintro ⟨p, hp, rfl⟩
      rcases List.mem_append.mp hp with h | h
      · right; exact ⟨p, h, rfl⟩
      · simp only [List.mem_singleton] at h
        subst h; left; rfl
    · rintro (rfl | ⟨p, hp, rfl⟩)
      · exact ⟨(f, v), List.mem_append.mpr (Or.inr (by simp)), rfl⟩
      · exact ⟨p, List.mem_append.mpr (Or.inl hp), rfl⟩

theorem syncFiles_key (hashString : String → String) (blobExists : String → Bool)
    (list : List ListItem) :
    ∀ (m : List (String × ListItem)) (f : String),
      (∃ p ∈ syncFiles hashString blobExists list m, p.1 = f) ↔
      ((∃ p ∈ m, p.1 = f) ∨ ∃ item ∈ list, item.FSFile.File = f ∧
        item.FSFile.LocalOnly = false ∧
        blobExists (blobPath hashString f false) = false) := by
  induction list with
  | nil => intro m f; simp [syncFiles]
  | cons item rest ih =>
    intro m f
    by_cases hlo : item.FSFile.LocalOnly
    · rw [show syncFiles hashString blobExists (item :: rest) m =
          syncFiles hashString blobExists rest m by simp [syncFiles, hlo]]
      rw [ih m f]
      constructor
      · rintro (h | h)
        · exact Or.inl h
        · right; obtain ⟨it, hit, hrest⟩ := h; exact ⟨it, by simp [hit], hrest⟩
      · rintro (h | ⟨it, hit, h1, h2, h3⟩)
        · exact Or.inl h
        · rcases List.mem_cons.mp hit with rfl | hit2
          · rw [hlo] at h2; cases h2
          · exact Or.inr ⟨it, hit2, h1, h2, h3⟩
    · by_cases hex : blobExists (blobPath hashString item.FSFile.File false)
      · rw [show syncFiles hashString blobExists (item :: rest) m =
            syncFiles hashString blobExists rest m by simp [syncFiles, hlo, hex]]
        rw [ih m f]
        constructor
        · rintro (h | h)
          · exact Or.inl h
          · right; obtain ⟨it, hit, hrest⟩ := h; exact ⟨it, by simp [hit], hrest⟩
        · rintro (h | ⟨it, hit, h1, h2, h3⟩)
          · exact Or.inl h
          · rcases List.mem_cons.mp hit with rfl | hit2
            · rw [← h1] at h3; rw [hex] at h3; cases h3
            · exact Or.inr ⟨it, hit2, h1, h2, h3⟩
      · rw [show syncFiles hashString blobExists (item :: rest) m =
            syncFiles hashString blobExists rest (mapSet m item.FSFile.File item) by
          simp [syncFiles, hlo, hex]]
        rw [ih (mapSet m item.FSFile.File item) f, mapSet_key]
        constructor
        · rintro ((rfl | h) | h)
          · right
            refine ⟨item, by simp, rfl, by simpa using hlo, by simpa using hex⟩
          · exact Or.inl h
          · right; obtain ⟨it, hit, hrest⟩ := h; exact ⟨it, by simp [hit], hrest⟩
        · rintro (h | ⟨it, hit, h1, h2, h3⟩)
          · exact Or.inl (Or.inr h)
          · rcases List.mem_cons.mp hit with rfl | hit2
            · exact Or.inl (Or.inl h1.symm)
            · exact Or.inr ⟨it, hit2, h1, h2, h3⟩

/-- C8: Sync hands the worker pool exactly the matched items that are neither
marked local-only nor already present at their blob path; the pool has 5
workers; when every download succeeds and some file was downloaded, the line
printed reports exactly the number of files handed to the pool; and in the
concrete scenario of 12 candidate items of which 3 already have their blob
path present, the 9 others are downloaded and the line reports 9. -/
theorem sync_downloads_exactly_missing (hashString : String → String)
    (blobExists : String → Bool) (downloadOk : String → Bool) (list : List ListItem) :
    (∀ f : String, f ∈ (Sync hashString blobExists downloadOk list).downloads ↔
      ∃ item ∈ list, item.FSFile.File = f ∧ item.FSFile.LocalOnly = false ∧
        blobExists (blobPath hashString f false) = false) ∧
    numDownloadWorkers = 5 ∧
    ((∀ f ∈ (Sync hashString blobExists downloadOk list).downloads, downloadOk f = true) →
      (Sync hashString blobExists downloadOk list).err = none ∧
      ((Sync hashString blobExists downloadOk list).downloads ≠ [] →
        (Sync hashString blobExists downloadOk list).msg =
          "Successfully downloaded " ++
            toString (Sync hashString blobExists downloadOk list).downloads.length ++
            " file(s).")) ∧
    Sync id sampleExists (fun _ => true) sampleList =
      { downloads := ["f3", "f4", "f5", "f6", "f7", "f8", "f9", "f10", "f11"],
        msg := "Successfully downloaded 9 file(s).", err := none } := by
  refine ⟨?_, rfl, ?_, by decide⟩
  · intro f
    have hk := syncFiles_key hashString blobExists list [] f
    simp only [List.not_mem_nil, false_and, exists_false, false_or] at hk
    by_cases hn : (syncFiles hashString blobExists list []).length = 0
    · have hnil : syncFiles hashString blobExists list [] = [] :=
        List.eq_nil_of_length_eq_zero hn
      rw [show (Sync hashString blobExists downloadOk list).downloads = [] by
        simp [Sync, hn]]
      rw [← hk, hnil]
      simp
    · have hdl : (Sync hashString blobExists downloadOk list).downloads =
          (syncFiles hashString blobExists list []).map Prod.fst := by
        by_cases hfail : ((syncFiles hashString blobExists list []).map Prod.fst).filter
            (fun f => !downloadOk f) = []
        · simp [Sync, hn, hfail]
        · simp [Sync, hn, hfail]
      rw [hdl, ← hk]
      simp only [List.mem_map]
  · intro hok
    by_cases hn : (syncFiles hashString blobExists list []).length = 0
    · have hnil : syncFiles hashString blobExists list [] = [] :=
        List.eq_nil_of_length_eq_zero hn
      constructor
      · simp [Sync, hn]
      · intro hne
        exact absurd (by simp [Sync, hn]) hne
    · have hdl : (Sync hashString blobExists downloadOk list).downloads =
          (syncFiles hashString blobExists list []).map Prod.fst := by
        by_cases hfail : ((syncFiles hashString blobExists list []).map Prod.fst).filter
            (fun f => !downloadOk f) = []
        · simp [Sync, hn, hfail]
        · simp [Sync, hn, hfail]
      have hfail : ((syncFiles hashString blobExists list []).map Prod.fst).filter
          (fun f => !downloadOk f) = [] := by
        rw [List.filter_eq_nil_iff]
        intro a ha
        rw [hdl] at hok
        simp [hok a ha]
      refine ⟨by simp [Sync, hn, hfail], fun _ => ?_⟩
      rw [hdl]
      simp [Sync, hn, hfail]

theorem freeLoop_append (hashString : String → String) (removeOk : String → Bool)
    (pre : List ListItem) :
    ∀ (blobs b1 : List String) (n1 : Nat) (post : List ListItem),
      freeLoop hashString removeOk blobs pre = (b1, n1, none) →
      freeLoop hashString removeOk blobs (pre ++ post) =
        ((freeLoop hashString removeOk b1 post).1,
          n1 + (freeLoop hashString removeOk b1 post).2.1,
          (freeLoop hashString removeOk b1 post).2.2) := by
  induction pre with
  | nil =>
    intro blobs b1 n1 post h
    obtain ⟨rfl, rfl, -⟩ : blobs = b1 ∧ 0 = n1 ∧ (none : Option GoErr) = none := by
      simpa [freeLoop, Prod.ext_iff] using h
    simp
  | cons q qs ih =>
    intro blobs b1 n1 post h
    by_cases hlo : q.FSFile.LocalOnly
    · rw [show freeLoop hashString removeOk blobs (q :: qs) =
          freeLoop hashString removeOk blobs qs by simp [freeLoop, hlo]] at h
      rw [List.cons_append, show freeLoop hashString removeOk blobs (q :: (qs ++ post)) =
          freeLoop hashString removeOk blobs (qs ++ post) by simp [freeLoop, hlo]]
      exact ih blobs b1 n1 post h
    · by_cases hmem : blobPath hashString q.FSFile.File false ∈ blobs
      · by_cases hrm : removeOk (blobPath hashString q.FSFile.File false)
        · rw [show freeLoop hashString removeOk blobs (q :: qs) =
              ((freeLoop hashString removeOk
                  (blobs.erase (blobPath hashString q.FSFile.File false)) qs).1,
                (freeLoop hashString removeOk
                  (blobs.erase (blobPath hashString q.FSFile.File false)) qs).2.1 + 1,
                (freeLoop hashString removeOk
                  (blobs.erase (blobPath hashString q.FSFile.File false)) qs).2.2) by
            simp [freeLoop, hlo, hmem, hrm]] at h
          generalize hr : freeLoop hashString removeOk
            (blobs.erase (blobPath hashString q.FSFile.File false)) qs = r at h
          obtain ⟨rb, rn, re⟩ := r
          simp only [Prod.mk.injEq] at h
          obtain ⟨hb, hn, he⟩ := h
          subst hb; subst he
          rw [List.cons_append, show freeLoop hashString removeOk blobs
              (q :: (qs ++ post)) =
              ((freeLoop hashString removeOk
                  (blobs.erase (blobPath hashString q.FSFile.File false)) (qs ++ post)).1,
                (freeLoop hashString removeOk
                  (blobs.erase (blobPath hashString q.FSFile.File false))
                  (qs ++ post)).2.1 + 1,
                (freeLoop hashString removeOk
                  (blobs.erase (blobPath hashString q.FSFile.File false))
                  (qs ++ post)).2.2) by
            simp [freeLoop, hlo, hmem, hrm]]
          rw [ih (blobs.erase (blobPath hashString q.FSFile.File false)) rb rn post hr]
          simp only [Prod.mk.injEq]
          exact ⟨trivial, by omega, trivial⟩
        · exfalso
          rw [show freeLoop hashString removeOk blobs (q :: qs) =
              (blobs, 0, some (.blobRemoveFailed
                (blobPath hashString q.FSFile.File false))) by
            simp [freeLoop, hlo, hmem, hrm]] at h
          simp [Prod.ext_iff] at h
      · rw [show freeLoop hashString removeOk blobs (q :: qs) =
            freeLoop hashString removeOk blobs qs by simp [freeLoop, hlo, hmem]] at h
        rw [List.cons_append, show freeLoop hashString removeOk blobs
            (q :: (qs ++ post)) = freeLoop hashString removeOk blobs (qs ++ post) by
          simp [freeLoop, hlo, hmem]]
        exact ih blobs b1 n1 post h

theorem freeLoop_count (hashString : String → String) (removeOk : String → Bool)
    (list : List ListItem) :
    ∀ (blobs b1 : List String) (n1 : Nat),
      freeLoop hashString removeOk blobs list = (b1, n1, none) →
      n1 + b1.length = blobs.length := by
  induction list with
  | nil =>
    intro blobs b1 n1 h
    obtain ⟨rfl, rfl, -⟩ : blobs = b1 ∧ 0 = n1 ∧ (none : Option GoErr) = none := by
      simpa [freeLoop, Prod.ext_iff] using h
    simp
  | cons q qs ih =>
    intro blobs b1 n1 h
    by_cases hlo : q.FSFile.LocalOnly
    · rw [show freeLoop hashString removeOk blobs (q :: qs) =
          freeLoop hashString removeOk blobs qs by simp [freeLoop, hlo]] at h
      exact ih blobs b1 n1 h
    · by_cases hmem : blobPath hashString q.FSFile.File false ∈ blobs
      · by_cases hrm : removeOk (blobPath hashString q.FSFile.File false)
        · rw [show freeLoop hashString removeOk blobs (q :: qs) =
              ((freeLoop hashString removeOk
                  (blobs.erase (blobPath hashString q.FSFile.File false)) qs).1,
                (freeLoop hashString removeOk
                  (blobs.erase (blobPath hashString q.FSFile.File false)) qs).2.1 + 1,
                (freeLoop hashString removeOk
                  (blobs.erase (blobPath hashString q.FSFile.File false)) qs).2.2) by
            simp [freeLoop, hlo, hmem, hrm]] at h
          generalize hr : freeLoop hashString removeOk
            (blobs.erase (blobPath hashString q.FSFile.File false)) qs = r at h
          obtain ⟨rb, rn, re⟩ := r
          simp only [Prod.mk.injEq] at h
          obtain ⟨hb, hn, he⟩ := h
          subst hb; subst he
          have hrec := ih (blobs.erase (blobPath hashString q.FSFile.File false)) rb rn hr
          have hlen := List.length_erase_of_mem hmem
          have hpos : 0 < blobs.length := List.length_pos.mpr (List.ne_nil_of_mem hmem)
          omega
        · exfalso
          rw [show freeLoop hashString removeOk blobs (q :: qs) =
              (blobs, 0, some (.blobRemoveFailed
                (blobPath hashString q.FSFile.File false))) by
            simp [freeLoop, hlo, hmem, hrm]] at h
          simp [Prod.ext_iff] at h
      · rw [show freeLoop hashString removeOk blobs (q :: qs) =
            freeLoop hashString removeOk blobs qs by simp [freeLoop, hlo, hmem]] at h
        exact ih blobs b1 n1 h

/-- C10: Free skips items marked local-only and items whose blob path is not
present; each remaining item's blob is removed one at a time; on the first
failed removal, the failing path's error is returned at once, the removals
made so far stay in effect (the blob store is exactly the pre-failure state,
so no rollback and no later removal); and on success the count the printed
line reports is exactly the number of blob files removed (the difference
between the store's sizes before and after). -/
theorem free_first_error_aborts :
    (∀ (hashString : String → String) (removeOk : String → Bool) (blobs : List String)
        (item : ListItem) (rest : List ListItem), item.FSFile.LocalOnly = true →
      freeLoop hashString removeOk blobs (item :: rest) =
        freeLoop hashString removeOk blobs rest) ∧
    (∀ (hashString : String → String) (removeOk : String → Bool) (blobs : List String)
        (item : ListItem) (rest : List ListItem),
      blobPath hashString item.FSFile.File false ∉ blobs →
      freeLoop hashString removeOk blobs (item :: rest) =
        freeLoop hashString removeOk blobs rest) ∧
    (∀ (hashString : String → String) (removeOk : String → Bool)
        (blobs b1 : List String) (n1 : Nat) (pre post : List ListItem) (item : ListItem),
      freeLoop hashString removeOk blobs pre = (b1, n1, none) →
      item.FSFile.LocalOnly = false →
      blobPath hashString item.FSFile.File false ∈ b1 →
      removeOk (blobPath hashString item.FSFile.File false) = false →
      Free hashString removeOk blobs (pre ++ item :: post) =
        (b1, "", some (.blobRemoveFailed (blobPath hashString item.FSFile.File false)))) ∧
    (∀ (hashString : String → String) (removeOk : String → Bool)
        (blobs b1 : List String) (n1 : Nat) (list : List ListItem),
      freeLoop hashString removeOk blobs list = (b1, n1, none) →
      n1 + b1.length = blobs.length ∧
      (0 < n1 → Free hashString removeOk blobs list =
        (b1, "Successfully freed " ++ toString n1 ++ " file(s).", none))) := by
  refine ⟨?_, ?_, ?_, ?_⟩
  · intro hashString removeOk blobs item rest hlo
    simp [freeLoop, hlo]
  · intro hashString removeOk blobs item rest hmem
    by_cases hlo : item.FSFile.LocalOnly <;> simp [freeLoop, hlo, hmem]
  · intro hashString removeOk blobs b1 n1 pre post item hpre hlo hmem hrm
    have hstep : freeLoop hashString removeOk b1 (item :: post) =
        (b1, 0, some (.blobRemoveFailed (blobPath hashString item.FSFile.File false))) := by
      simp [freeLoop, hlo, hmem, hrm]
    have := freeLoop_append hashString removeOk pre blobs b1 n1 (item :: post) hpre
    rw [hstep] at this
    rw [Free, this]
  · intro hashString removeOk blobs b1 n1 list hloop
    refine ⟨freeLoop_count hashString removeOk list blobs b1 n1 hloop, ?_⟩
    intro hpos
    rw [Free, hloop]
    simp [Nat.pos_iff_ne_zero.mp hpos]

end C2FmZQ
